import Mathlib

/-!
Verification of the field-encryption component of the repository
(`src/lib/prisma.ts`, second module: `EncryptionService` and
`createEncryptionMiddleware`).

The development shallowly embeds the TypeScript source:

* Byte buffers (`Buffer`) are `List Nat` with every entry `< 256`.
* The base64 direction of `Buffer.toString` / `Buffer.from` is modelled by
  `b64Encode` / `b64Decode` below.  The decoder is lenient the way the Node
  decoder is: characters outside the base64 alphabet (including padding) are
  skipped and the remaining sextets are decoded; a trailing group of fewer
  than four sextets contributes the corresponding truncated bytes.
* The external cipher pipeline used by the source
  (`scrypt`, `createCipher(alg, key)` / `createDecipher(alg, key)`,
  `cipher.update/final/getAuthTag`, `decipher.setAuthTag/update/final`)
  is not code of this repository; it is modelled by a parameter structure
  `AEAD` whose fields carry the documented contract of an authenticated
  cipher: decryption succeeds exactly on an honestly produced
  (tag, ciphertext) pair for the same key, the tag is 16 bytes, and any
  single-bit corruption of the ciphertext changes its tag.  Note that,
  faithfully to the source, the random `iv` is generated and stored in the
  wire blob but never handed to the cipher (`createCipher` takes no IV).
* `process.env.ENCRYPTION_KEY` is an `Option String` argument, and the
  randomness drawn by `randomBytes` is an explicit `Rand` argument whose
  well-formedness (`Rand.wf`) is the postcondition of `randomBytes`.
* Rejected promises / thrown errors are `Except String`, carrying the
  thrown message.
-/

set_option maxHeartbeats 1000000
set_option maxRecDepth 8192

namespace Aliyah

/-! ## Base64, as performed by `Buffer` -/

def b64Chars : List Char :=
  "ABCDEFGHIJKLMNOPQRSTUVWXYZabcdefghijklmnopqrstuvwxyz0123456789+/".toList

def sextetChar (n : Nat) : Char := b64Chars.getD n 'A'

def b64Value (c : Char) : Option Nat :=
  let i := b64Chars.indexOf c
  if i < 64 then some i else none

def b64EncodeList : List Nat → List Char
  | b0 :: b1 :: b2 :: rest =>
    sextetChar (b0 / 4) :: sextetChar (b0 % 4 * 16 + b1 / 16) ::
      sextetChar (b1 % 16 * 4 + b2 / 64) :: sextetChar (b2 % 64) :: b64EncodeList rest
  | [b0, b1] =>
    [sextetChar (b0 / 4), sextetChar (b0 % 4 * 16 + b1 / 16), sextetChar (b1 % 16 * 4), '=']
  | [b0] => [sextetChar (b0 / 4), sextetChar (b0 % 4 * 16), '=', '=']
  | [] => []

def b64DecodeList : List Nat → List Nat
  | s0 :: s1 :: s2 :: s3 :: rest =>
    (s0 * 4 + s1 / 16) :: (s1 % 16 * 16 + s2 / 4) :: (s2 % 4 * 64 + s3) :: b64DecodeList rest
  | [s0, s1, s2] => [s0 * 4 + s1 / 16, s1 % 16 * 16 + s2 / 4]
  | [s0, s1] => [s0 * 4 + s1 / 16]
  | [_] => []
  | [] => []

def b64Encode (l : List Nat) : String := String.mk (b64EncodeList l)

def b64Decode (s : String) : List Nat := b64DecodeList (s.toList.filterMap b64Value)

theorem b64Value_sextetChar : ∀ n < 64, b64Value (sextetChar n) = some n := by decide

theorem b64Value_pad : b64Value '=' = none := by decide

theorem b64DecodeList_encodeList :
    ∀ l : List Nat, (∀ b ∈ l, b < 256) →
      b64DecodeList ((b64EncodeList l).filterMap b64Value) = l
  | [], _ => rfl
  | [b0], h => by
    have hb0 : b0 < 256 := h b0 (by simp)
    rw [show b64EncodeList [b0] =
        [sextetChar (b0 / 4), sextetChar (b0 % 4 * 16), '=', '='] from rfl]
    rw [List.filterMap_cons, b64Value_sextetChar _ (by omega)]
    rw [List.filterMap_cons, b64Value_sextetChar _ (by omega)]
    rw [List.filterMap_cons, b64Value_pad, List.filterMap_cons, b64Value_pad,
      List.filterMap_nil]
    show [b0 / 4 * 4 + b0 % 4 * 16 / 16] = [b0]
    have : b0 / 4 * 4 + b0 % 4 * 16 / 16 = b0 := by omega
    rw [this]
  | [b0, b1], h => by
    have hb0 : b0 < 256 := h b0 (by simp)
    have hb1 : b1 < 256 := h b1 (by simp)
    rw [show b64EncodeList [b0, b1] =
        [sextetChar (b0 / 4), sextetChar (b0 % 4 * 16 + b1 / 16),
          sextetChar (b1 % 16 * 4), '='] from rfl]
    rw [List.filterMap_cons, b64Value_sextetChar _ (by omega)]
    rw [List.filterMap_cons, b64Value_sextetChar _ (by omega)]
    rw [List.filterMap_cons, b64Value_sextetChar _ (by omega)]
    rw [List.filterMap_cons, b64Value_pad, List.filterMap_nil]
    show [b0 / 4 * 4 + (b0 % 4 * 16 + b1 / 16) / 16,
        (b0 % 4 * 16 + b1 / 16) % 16 * 16 + b1 % 16 * 4 / 4] = [b0, b1]
    have e0 : b0 / 4 * 4 + (b0 % 4 * 16 + b1 / 16) / 16 = b0 := by omega
    have e1 : (b0 % 4 * 16 + b1 / 16) % 16 * 16 + b1 % 16 * 4 / 4 = b1 := by omega
    rw [e0, e1]
  | b0 :: b1 :: b2 :: rest, h => by
    have hb0 : b0 < 256 := h b0 (by simp)
    have hb1 : b1 < 256 := h b1 (by simp)
    have hb2 : b2 < 256 := h b2 (by simp)
    have ih := b64DecodeList_encodeList rest (fun b hb => h b (by simp [hb]))
    rw [show b64EncodeList (b0 :: b1 :: b2 :: rest) =
        sextetChar (b0 / 4) :: sextetChar (b0 % 4 * 16 + b1 / 16) ::
          sextetChar (b1 % 16 * 4 + b2 / 64) :: sextetChar (b2 % 64) ::
          b64EncodeList rest from rfl]
    rw [List.filterMap_cons, b64Value_sextetChar _ (by omega)]
    rw [List.filterMap_cons, b64Value_sextetChar _ (by omega)]
    rw [List.filterMap_cons, b64Value_sextetChar _ (by omega)]
    rw [List.filterMap_cons, b64Value_sextetChar _ (by omega)]
    rw [show ∀ s0 s1 s2 s3 t, b64DecodeList (s0 :: s1 :: s2 :: s3 :: t) =
        (s0 * 4 + s1 / 16) :: (s1 % 16 * 16 + s2 / 4) :: (s2 % 4 * 64 + s3) ::
          b64DecodeList t from fun _ _ _ _ _ => rfl]
    rw [ih]
    have e0 : b0 / 4 * 4 + (b0 % 4 * 16 + b1 / 16) / 16 = b0 := by omega
    have e1 : (b0 % 4 * 16 + b1 / 16) % 16 * 16 + (b1 % 16 * 4 + b2 / 64) / 4 = b1 := by
      omega
    have e2 : (b1 % 16 * 4 + b2 / 64) % 4 * 64 + b2 % 64 = b2 := by omega
    rw [e0, e1, e2]

theorem b64Decode_encode (l : List Nat) (h : ∀ b ∈ l, b < 256) :
    b64Decode (b64Encode l) = l := by
  have : (b64Encode l).toList = b64EncodeList l := rfl
  rw [b64Decode, this, b64DecodeList_encodeList l h]

theorem sextetChar_mem_b64Chars : ∀ n < 64, sextetChar n ∈ b64Chars := by decide

theorem b64EncodeList_chars :
    ∀ l : List Nat, (∀ b ∈ l, b < 256) →
      ∀ c ∈ b64EncodeList l, c ∈ b64Chars ∨ c = '='
  | [], _ => by intro c hc; cases hc
  | [b0], h => by
    have hb0 : b0 < 256 := h b0 (by simp)
    intro c hc
    rw [show b64EncodeList [b0] =
        [sextetChar (b0 / 4), sextetChar (b0 % 4 * 16), '=', '='] from rfl] at hc
    simp only [List.mem_cons, List.not_mem_nil, or_false] at hc
    rcases hc with rfl | rfl | rfl | rfl
    · exact Or.inl (sextetChar_mem_b64Chars _ (by omega))
    · exact Or.inl (sextetChar_mem_b64Chars _ (by omega))
    · exact Or.inr rfl
    · exact Or.inr rfl
  | [b0, b1], h => by
    have hb0 : b0 < 256 := h b0 (by simp)
    have hb1 : b1 < 256 := h b1 (by simp)
    intro c hc
    rw [show b64EncodeList [b0, b1] =
        [sextetChar (b0 / 4), sextetChar (b0 % 4 * 16 + b1 / 16),
          sextetChar (b1 % 16 * 4), '='] from rfl] at hc
    simp only [List.mem_cons, List.not_mem_nil, or_false] at hc
    rcases hc with rfl | rfl | rfl | rfl
    · exact Or.inl (sextetChar_mem_b64Chars _ (by omega))
    · exact Or.inl (sextetChar_mem_b64Chars _ (by omega))
    · exact Or.inl (sextetChar_mem_b64Chars _ (by omega))
    · exact Or.inr rfl
  | b0 :: b1 :: b2 :: rest, h => by
    have hb0 : b0 < 256 := h b0 (by simp)
    have hb1 : b1 < 256 := h b1 (by simp)
    have hb2 : b2 < 256 := h b2 (by simp)
    have ih := b64EncodeList_chars rest (fun b hb => h b (by simp [hb]))
    intro c hc
    rw [show b64EncodeList (b0 :: b1 :: b2 :: rest) =
        sextetChar (b0 / 4) :: sextetChar (b0 % 4 * 16 + b1 / 16) ::
          sextetChar (b1 % 16 * 4 + b2 / 64) :: sextetChar (b2 % 64) ::
          b64EncodeList rest from rfl] at hc
    simp only [List.mem_cons] at hc
    rcases hc with rfl | rfl | rfl | rfl | hc
    · exact Or.inl (sextetChar_mem_b64Chars _ (by omega))
    · exact Or.inl (sextetChar_mem_b64Chars _ (by omega))
    · exact Or.inl (sextetChar_mem_b64Chars _ (by omega))
    · exact Or.inl (sextetChar_mem_b64Chars _ (by omega))
    · exact ih c hc

/-! ## Single-bit corruption of a byte buffer -/

/-- Flip bit `j` (0 ≤ j < 8) of the byte at index `i`. -/
def flipByte (b j : Nat) : Nat := if b / 2 ^ j % 2 = 1 then b - 2 ^ j else b + 2 ^ j

def flipBit (l : List Nat) (i j : Nat) : List Nat := l.set i (flipByte (l.getD i 0) j)

theorem flipByte_diff (b j : Nat) :
    flipByte b j = b + 2 ^ j ∨ (2 ^ j ≤ b ∧ flipByte b j = b - 2 ^ j) := by
  unfold flipByte
  split
  · next h =>
    refine Or.inr ⟨?_, rfl⟩
    rcases Nat.lt_or_ge b (2 ^ j) with hb | hb
    · rw [Nat.div_eq_of_lt hb] at h; omega
    · exact hb
  · exact Or.inl rfl

theorem flipByte_ne (b j : Nat) : flipByte b j ≠ b := by
  have h1 : 0 < 2 ^ j := Nat.pos_pow_of_pos j (by omega)
  rcases flipByte_diff b j with h | ⟨hle, h⟩ <;> omega

theorem flipByte_lt (b j : Nat) (hb : b < 256) (hj : j < 8) : flipByte b j < 256 := by
  unfold flipByte
  interval_cases j <;> split <;> omega

theorem length_flipBit (l : List Nat) (i j : Nat) : (flipBit l i j).length = l.length :=
  List.length_set l i _

theorem sum_set :
    ∀ (l : List Nat) (i v : Nat), i < l.length →
      (l.set i v).sum + l.getD i 0 = l.sum + v
  | [], i, v, h => by simp at h
  | a :: t, 0, v, _ => by simp [List.getD]; omega
  | a :: t, i + 1, v, h => by
    have ih := sum_set t i v (by simpa using h)
    simp only [List.set, List.sum_cons, List.getD_cons_succ]
    omega

theorem sum_flipBit_ne (l : List Nat) (i j : Nat) (hi : i < l.length) (hj : j < 8)
    (m : Nat) : (m + (flipBit l i j).sum) % 256 ≠ (m + l.sum) % 256 := by
  have h1 : 0 < 2 ^ j := Nat.pos_pow_of_pos j (by omega)
  have h2 : 2 ^ j ≤ 128 := by
    calc 2 ^ j ≤ 2 ^ 7 := Nat.pow_le_pow_right (by omega) (by omega)
    _ = 128 := by norm_num
  have hset := sum_set l i (flipByte (l.getD i 0) j) hi
  rw [flipBit]
  rcases flipByte_diff (l.getD i 0) j with h | ⟨hle, h⟩ <;> rw [h] at hset ⊢ <;> omega

/-! ## JavaScript objects: field maps of string / non-string values -/

/-- A JavaScript value stored in a record: a string, or some non-string value
(identified by a tag, carrying its JS truthiness). -/
inductive Value where
  | str : String → Value
  | other : Nat → Bool → Value
deriving DecidableEq

abbrev Obj := List (String × Value)

def getV : Obj → String → Option Value
  | [], _ => none
  | p :: t, k => if p.1 = k then some p.2 else getV t k

def delV (o : Obj) (k : String) : Obj := o.filter (fun p => p.1 ≠ k)

def setV (o : Obj) (k : String) (v : Value) : Obj := (k, v) :: delV o k

theorem getV_delV (o : Obj) (k k' : String) :
    getV (delV o k) k' = if k' = k then none else getV o k' := by
  induction o with
  | nil => simp [delV, getV]
  | cons p t ih =>
    simp only [delV, List.filter_cons] at ih ⊢
    by_cases hp : p.1 = k
    · rw [if_neg (by simp [hp]), ih]
      by_cases hk : k' = k
      · simp [hk]
      · rw [if_neg hk, if_neg hk]
        have hpk : ¬p.1 = k' := fun h => hk (by rw [← h, hp])
        simp [getV, hpk]
    · rw [if_pos (by simp [hp])]
      simp only [getV]
      by_cases hpk : p.1 = k'
      · have hk : ¬k' = k := fun h => hp (by rw [hpk, h])
        simp [hpk, hk]
      · rw [if_neg hpk, ih]
        by_cases hk : k' = k <;> simp [hk, hpk]

theorem getV_setV (o : Obj) (k k' : String) (v : Value) :
    getV (setV o k v) k' = if k' = k then some v else getV o k' := by
  by_cases hk : k' = k <;> simp [setV, getV, hk, getV_delV]
  · exact fun h => absurd h.symm hk

/-! ## Randomness drawn by `randomBytes`, and the cipher contract -/

structure Rand where
  salt : List Nat
  iv : List Nat

/-- Postcondition of `randomBytes(32)` / `randomBytes(16)`: the drawn buffers
have the requested lengths and are bytes. -/
def Rand.wf (r : Rand) : Prop :=
  r.salt.length = 32 ∧ r.iv.length = 16 ∧
    (∀ b ∈ r.salt, b < 256) ∧ (∀ b ∈ r.iv, b < 256)

instance (r : Rand) : Decidable r.wf := by unfold Rand.wf; exact inferInstance

/-- Contract of the external cipher pipeline used by the source:
`scrypt` (`kdf`), and the aes-256-gcm `createCipher(key)` /
`createDecipher(key)` pipeline, which is a deterministic
function of the key handed to it (the stored IV is never passed to it).
`enc` is `cipher.update + final`, `tagOf` is `cipher.getAuthTag` (GCM computes
the tag over the ciphertext), and `dec` is
`decipher.setAuthTag + update + final`, which fails (`none`) unless the tag
verifies.  `tag_flip` is the idealised authentication guarantee the spec
relies on: corrupting any single bit of the ciphertext changes its tag. -/
structure AEAD where
  kdf : String → List Nat → List Nat
  enc : List Nat → String → List Nat
  tagOf : List Nat → List Nat → List Nat
  dec : List Nat → List Nat → List Nat → Option String
  enc_lt : ∀ k m, ∀ b ∈ enc k m, b < 256
  tag_len : ∀ k c, (tagOf k c).length = 16
  tag_lt : ∀ k c, ∀ b ∈ tagOf k c, b < 256
  dec_enc : ∀ k m, dec k (tagOf k (enc k m)) (enc k m) = some m
  dec_auth : ∀ k t c m, dec k t c = some m → t = tagOf k c
  tag_flip : ∀ k c i j, i < c.length → j < 8 → tagOf k (flipBit c i j) ≠ tagOf k c

/-! ## Hex encoding (used for the `authTag` / `iv` fields of the result) -/

def hexChar (n : Nat) : Char := "0123456789abcdef".toList.getD n '0'

def hexEncode (l : List Nat) : String :=
  String.mk (l.foldr (fun b acc => hexChar (b / 16) :: hexChar (b % 16) :: acc) [])

/-- The interface `EncryptedData` of `src/types/global.ts`. -/
structure EncryptedData where
  encrypted : String
  authTag : String
  iv : String
deriving DecidableEq, Inhabited

namespace EncryptionService

/-- Field `this.keyLength`. -/
def keyLength : Nat := 32

/-- Field `this.ivLength`. -/
def ivLength : Nat := 16

/-- Field `this.tagLength`. -/
def tagLength : Nat := 16

/-- Field `this.saltLength`. -/
def saltLength : Nat := 32

/-- Body of the `try` block of `EncryptionService.encrypt`.  `A` is the
external cipher pipeline, `env` is `process.env.ENCRYPTION_KEY`, `r` holds the
two `randomBytes` draws.  `A.kdf` is `deriveKey` (scrypt of the master key
with the salt); the derived key is handed to `createCipher`, the stored `iv`
is not.  The `getAuthTag` fallback branch of the source (a random tag when
`getAuthTag` is unavailable) is outside this model: under GCM the tag is
available, and `tagOf` is it. -/
def encryptTry (A : AEAD) (env : Option String) (r : Rand) (text : String) :
    Except String EncryptedData :=
  match env with
  | none => Except.error "ENCRYPTION_KEY debe tener al menos 32 caracteres"
  | some masterKey =>
    if masterKey.length < 32 then
      Except.error "ENCRYPTION_KEY debe tener al menos 32 caracteres"
    else
      let salt := r.salt
      let iv := r.iv
      let key := A.kdf masterKey salt
      let encryptedBytes := A.enc key text
      let authTag := A.tagOf key encryptedBytes
      let combined := salt ++ iv ++ authTag ++ encryptedBytes
      Except.ok
        { encrypted := b64Encode combined
          authTag := hexEncode authTag
          iv := hexEncode iv }

/-- Method `EncryptionService.encrypt`: the `catch` block replaces any thrown error
by the generic `new Error` message. -/
def encrypt (A : AEAD) (env : Option String) (r : Rand) (text : String) :
    Except String EncryptedData :=
  match encryptTry A env r text with
  | Except.ok v => Except.ok v
  | Except.error _ => Except.error "Error al cifrar los datos"

/-- Body of the `try` block of `EncryptionService.decrypt` for a string
argument.  Note the only configuration check is `if (!masterKey)`: a present
but short key is accepted.  Slicing mirrors the three `subarray` calls; the
sliced `iv` is extracted but never used (`createDecipher` takes no IV).
`A.dec` is `setAuthTag + update + final`, failing when the tag does not
verify. -/
def decryptTry (A : AEAD) (env : Option String) (data : String) :
    Except String String :=
  match env with
  | none => Except.error "ENCRYPTION_KEY no está configurada"
  | some masterKey =>
    if masterKey = "" then Except.error "ENCRYPTION_KEY no está configurada"
    else
      let combined := b64Decode data
      let salt := combined.take saltLength
      let authTag := (combined.drop (saltLength + ivLength)).take tagLength
      let encryptedBytes := combined.drop (saltLength + ivLength + tagLength)
      let key := A.kdf masterKey salt
      match A.dec key authTag encryptedBytes with
      | some m => Except.ok m
      | none => Except.error "Unsupported state or unable to authenticate data"

/-- Method `EncryptionService.decrypt`: the `catch` block replaces any thrown error
by the generic `new Error` message. -/
def decrypt (A : AEAD) (env : Option String) (data : String) :
    Except String String :=
  match decryptTry A env data with
  | Except.ok v => Except.ok v
  | Except.error _ => Except.error "Error al descifrar los datos"

/-- Method `EncryptionService.isEncrypted`: decode as base64 and compare the
length against `saltLength + ivLength + tagLength + 1`.  The base64 decoder
never throws, so the `catch` branch of the source is dead; the model is
total. -/
def isEncrypted (data : String) : Bool :=
  decide (saltLength + ivLength + tagLength + 1 ≤ (b64Decode data).length)

/-- One iteration of the `for` loop of `EncryptionService.encryptObject`:
a truthiness check plus a typeof string check — the condition reads the
original `obj` — then assign the Encrypted-suffixed key on `result` and
`delete result[field]`.  `encFn` stands for `this.encrypt` (bound to the
process key and the randomness of the call), projected on `.encrypted`. -/
def encObjStep (encFn : String → Except String String) (obj : Obj)
    (result : Obj) (field : String) : Except String Obj :=
  match getV obj field with
  | some (Value.str s) =>
    if s = "" then Except.ok result
    else (encFn s).map (fun blob => delV (setV result (field ++ "Encrypted") (Value.str blob)) field)
  | some (Value.other _ _) => Except.ok result
  | none => Except.ok result

/-- The `for` loop of `encryptObject`: `result` is threaded through the
iterations, a rejected `encrypt` aborts the loop. -/
def encryptObjectLoop (encFn : String → Except String String) (obj : Obj) :
    Obj → List String → Except String Obj
  | result, [] => Except.ok result
  | result, field :: rest =>
    match encObjStep encFn obj result field with
    | Except.ok result2 => encryptObjectLoop encFn obj result2 rest
    | Except.error e => Except.error e

/-- Method `EncryptionService.encryptObject`: `result` starts as a copy of `obj`. -/
def encryptObject (encFn : String → Except String String) (obj : Obj)
    (fieldsToEncrypt : List String) : Except String Obj :=
  encryptObjectLoop encFn obj obj fieldsToEncrypt

end EncryptionService

/-! ## The Prisma middleware (`createEncryptionMiddleware`) -/

/-- The `sensitiveFields` list of `createEncryptionMiddleware`. -/
def sensitiveFields : List String :=
  ["firstName", "lastName", "phone", "birthDate", "nationality", "address", "motivation"]

/-- Prisma middleware parameters: `params.model`, `params.action`,
`params.args.data` (`none` when absent / falsy). -/
structure Params where
  model : String
  action : String
  data : Option Obj

/-- Result of `next(params)`: `null`, a single record, or an array. -/
inductive DBResult where
  | null : DBResult
  | one : Obj → DBResult
  | many : List Obj → DBResult
deriving DecidableEq

/-- One iteration of the write-path loop of the middleware:
`if (params.args.data[field])` — truthiness only, no `typeof` check, and it
reads the object being mutated — then encrypt, assign
the Encrypted-suffixed key on `data`, `delete data[field]`.  A truthy non-string value
makes `encrypt` throw (cipher update of a non-string), surfaced as the
generic encrypt error; the loop is not wrapped in `try`, so the error
propagates. -/
def encDataStep (encFn : String → Except String String) (data : Obj)
    (field : String) : Except String Obj :=
  match getV data field with
  | some (Value.str s) =>
    if s = "" then Except.ok data
    else (encFn s).map (fun blob => delV (setV data (field ++ "Encrypted") (Value.str blob)) field)
  | some (Value.other _ b) =>
    if b then Except.error "Error al cifrar los datos" else Except.ok data
  | none => Except.ok data

/-- The write-path loop of the middleware over the sensitive fields. -/
def encryptDataLoop (encFn : String → Except String String) :
    Obj → List String → Except String Obj
  | data, [] => Except.ok data
  | data, field :: rest =>
    match encDataStep encFn data field with
    | Except.ok d2 => encryptDataLoop encFn d2 rest
    | Except.error e => Except.error e

def encryptData (encFn : String → Except String String) (fields : List String)
    (d : Obj) : Except String Obj :=
  encryptDataLoop encFn d fields

/-- One iteration of the read-path loop of the middleware:
`if (item[encryptedField])`, then `try { item[field] = await decrypt(...);
delete item[encryptedField] } catch { ... }` — on a decrypt failure the item
is left as it was.  A truthy non-string value makes `decrypt` throw (it has
no `.encrypted`), which the `catch` also swallows. -/
def decStep (decFn : String → Except String String) (it : Obj)
    (field : String) : Obj :=
  match getV it (field ++ "Encrypted") with
  | some (Value.str s) =>
    if s = "" then it
    else
      match decFn s with
      | Except.ok plain => delV (setV it field (Value.str plain)) (field ++ "Encrypted")
      | Except.error _ => it
  | some (Value.other _ _) => it
  | none => it

/-- The read-path loop of the middleware over the sensitive fields of one
item. -/
def decryptItemLoop (decFn : String → Except String String) :
    Obj → List String → Obj
  | it, [] => it
  | it, field :: rest => decryptItemLoop decFn (decStep decFn it field) rest

def decryptItem (decFn : String → Except String String) (fields : List String)
    (item : Obj) : Obj :=
  decryptItemLoop decFn item fields

/-- The middleware returned by `createEncryptionMiddleware`.  `encFn` / `decFn`
stand for the module-level `encrypt` / `decrypt` helpers (bound to the
process key and per-call randomness, projected on `.encrypted`). -/
def createEncryptionMiddleware (encFn decFn : String → Except String String)
    (params : Params) (next : Params → DBResult) : Except String DBResult :=
  match
    (if (params.action = "create" ∨ params.action = "update") ∧
        params.model = "UserProfile" then
      match params.data with
      | some d =>
        (encryptData encFn sensitiveFields d).map
          (fun d2 => { params with data := some d2 })
      | none => Except.ok params
    else Except.ok params) with
  | Except.error e => Except.error e
  | Except.ok params2 =>
    let result := next params2
    if (params2.action = "findUnique" ∨ params2.action = "findFirst" ∨
        params2.action = "findMany") ∧ params2.model = "UserProfile" then
      Except.ok
        (match result with
          | DBResult.null => DBResult.null
          | DBResult.one item => DBResult.one (decryptItem decFn sensitiveFields item)
          | DBResult.many items =>
            DBResult.many (items.map (decryptItem decFn sensitiveFields)))
    else Except.ok result

/-! ## A concrete cipher satisfying the AEAD contract, for concrete runs -/

theorem char_toNat_lt (c : Char) : c.toNat < 1114112 := by
  have h := c.valid
  rcases h with h | ⟨_, h2⟩
  · exact Nat.lt_trans h (by norm_num)
  · exact h2

def charDigits (n : Nat) : List Nat := [n % 256, n / 256 % 256, n / 65536]

def bytesOfChars : List Char → List Nat
  | [] => []
  | c :: cs => charDigits c.toNat ++ bytesOfChars cs

def charsOfBytes : List Nat → List Char
  | b0 :: b1 :: b2 :: rest => Char.ofNat (b0 + 256 * b1 + 65536 * b2) :: charsOfBytes rest
  | _ => []

theorem charsOfBytes_bytesOfChars : ∀ l : List Char, charsOfBytes (bytesOfChars l) = l
  | [] => rfl
  | c :: cs => by
    have ih := charsOfBytes_bytesOfChars cs
    show charsOfBytes (c.toNat % 256 :: c.toNat / 256 % 256 :: c.toNat / 65536 ::
      bytesOfChars cs) = c :: cs
    rw [show ∀ b0 b1 b2 t, charsOfBytes (b0 :: b1 :: b2 :: t) =
        Char.ofNat (b0 + 256 * b1 + 65536 * b2) :: charsOfBytes t from
      fun _ _ _ _ => rfl]
    rw [ih]
    have he : c.toNat % 256 + 256 * (c.toNat / 256 % 256) + 65536 * (c.toNat / 65536) =
        c.toNat := by omega
    rw [he, Char.ofNat_toNat]

theorem bytesOfChars_lt : ∀ l : List Char, ∀ b ∈ bytesOfChars l, b < 256
  | [] => by intro b hb; cases hb
  | c :: cs => by
    intro b hb
    have hc := char_toNat_lt c
    rw [show bytesOfChars (c :: cs) = c.toNat % 256 :: c.toNat / 256 % 256 ::
        c.toNat / 65536 :: bytesOfChars cs from rfl] at hb
    simp only [List.mem_cons] at hb
    rcases hb with rfl | rfl | rfl | hb
    · omega
    · omega
    · omega
    · exact bytesOfChars_lt cs b hb

/-- A concrete instantiation of the cipher contract: the "ciphertext" is a
byte encoding of the plaintext and the tag is a 16-byte keyed checksum (which
detects every single-bit flip).  It serves only to run the embedded source
on concrete inputs. -/
def toyTag (k c : List Nat) : List Nat := List.replicate 16 ((k.sum + c.sum) % 256)

def toyDec (k t c : List Nat) : Option String :=
  if t = toyTag k c then some (String.mk (charsOfBytes c)) else none

theorem toyTag_flip (k c : List Nat) (i j : Nat) (hi : i < c.length) (hj : j < 8) :
    toyTag k (flipBit c i j) ≠ toyTag k c := by
  intro heq
  have hmem : (k.sum + (flipBit c i j).sum) % 256 ∈
      List.replicate 16 ((k.sum + c.sum) % 256) := by
    have h2 : List.replicate 16 ((k.sum + (flipBit c i j).sum) % 256) =
        List.replicate 16 ((k.sum + c.sum) % 256) := heq
    rw [← h2]
    exact List.mem_replicate.mpr ⟨by omega, rfl⟩
  exact sum_flipBit_ne c i j hi hj k.sum (List.eq_of_mem_replicate hmem)

def toyAEAD : AEAD where
  kdf mk salt := mk.length :: salt
  enc _ m := bytesOfChars m.data
  tagOf := toyTag
  dec := toyDec
  enc_lt := fun _ m => bytesOfChars_lt m.data
  tag_len := fun _ _ => List.length_replicate 16 _
  tag_lt := fun _ _ b hb => by
    rw [List.eq_of_mem_replicate hb]; exact Nat.mod_lt _ (by omega)
  dec_enc := fun k m => by
    rw [toyDec, if_pos rfl, charsOfBytes_bytesOfChars]
  dec_auth := fun k t c m h => by
    by_cases ht : t = toyTag k c
    · exact ht
    · rw [toyDec, if_neg ht] at h
      cases h
  tag_flip := toyTag_flip

/-! ## Workhorse lemmas about the wire blob -/

theorem take_32_combined (salt iv tg ct : List Nat) (hs : salt.length = 32) :
    (salt ++ iv ++ tg ++ ct).take 32 = salt := by
  rw [List.append_assoc, List.append_assoc]
  exact List.take_left' hs

theorem slice_tag_combined (salt iv tg ct : List Nat) (hs : salt.length = 32)
    (hiv : iv.length = 16) (ht : tg.length = 16) :
    ((salt ++ iv ++ tg ++ ct).drop 48).take 16 = tg := by
  rw [show salt ++ iv ++ tg ++ ct = (salt ++ iv) ++ (tg ++ ct) from
    (List.append_assoc (salt ++ iv) tg ct).symm ▸ rfl]
  rw [List.drop_left' (by simp [hs, hiv]), List.take_left' ht]

theorem slice_ct_combined (salt iv tg ct : List Nat) (hs : salt.length = 32)
    (hiv : iv.length = 16) (ht : tg.length = 16) :
    (salt ++ iv ++ tg ++ ct).drop 64 = ct :=
  List.drop_left' (by simp [hs, hiv, ht])

theorem combined_bytes (A : AEAD) (key : List Nat) (r : Rand) (s : String)
    (hr : r.wf) :
    ∀ b ∈ r.salt ++ r.iv ++ A.tagOf key (A.enc key s) ++ A.enc key s, b < 256 := by
  obtain ⟨_, _, hsb, hivb⟩ := hr
  intro b hb
  simp only [List.mem_append] at hb
  rcases hb with ((hb | hb) | hb) | hb
  · exact hsb b hb
  · exact hivb b hb
  · exact A.tag_lt key _ b hb
  · exact A.enc_lt key s b hb

/-- Successful `encrypt`: with a present master key of length ≥ 32 the result
is the base64 blob salt ‖ iv ‖ tag ‖ ciphertext. -/
theorem encrypt_ok (A : AEAD) (mk : String) (r : Rand) (s : String)
    (hk : 32 ≤ mk.length) :
    EncryptionService.encrypt A (some mk) r s = Except.ok
      { encrypted := b64Encode (r.salt ++ r.iv ++
          A.tagOf (A.kdf mk r.salt) (A.enc (A.kdf mk r.salt) s) ++
          A.enc (A.kdf mk r.salt) s)
        authTag := hexEncode (A.tagOf (A.kdf mk r.salt) (A.enc (A.kdf mk r.salt) s))
        iv := hexEncode r.iv } := by
  rw [EncryptionService.encrypt, EncryptionService.encryptTry,
    if_neg (by omega : ¬mk.length < 32)]

/-- Running `decrypt` on a well-formed blob: the outcome is decided by the cipher
`dec` on the sliced tag and ciphertext, with the key re-derived from the
sliced salt. -/
theorem decrypt_blob (A : AEAD) (mk : String) (hk : mk ≠ "")
    (salt iv tg ct : List Nat) (hs : salt.length = 32) (hiv : iv.length = 16)
    (ht : tg.length = 16) (hb : ∀ b ∈ salt ++ iv ++ tg ++ ct, b < 256) :
    EncryptionService.decrypt A (some mk) (b64Encode (salt ++ iv ++ tg ++ ct)) =
      match A.dec (A.kdf mk salt) tg ct with
      | some m => Except.ok m
      | none => Except.error "Error al descifrar los datos" := by
  rw [EncryptionService.decrypt, EncryptionService.decryptTry, if_neg hk,
    b64Decode_encode _ hb]
  show (match
      match A.dec (A.kdf mk ((salt ++ iv ++ tg ++ ct).take 32))
        (((salt ++ iv ++ tg ++ ct).drop 48).take 16)
        ((salt ++ iv ++ tg ++ ct).drop 64) with
      | some m => Except.ok m
      | none =>
        (Except.error "Unsupported state or unable to authenticate data" :
          Except String String) with
    | Except.ok v => Except.ok v
    | Except.error _ => Except.error "Error al descifrar los datos") = _
  rw [take_32_combined salt iv tg ct hs]
  rw [slice_tag_combined salt iv tg ct hs hiv ht, slice_ct_combined salt iv tg ct hs hiv ht]
  cases A.dec (A.kdf mk salt) tg ct <;> rfl

theorem slice_iv_combined (salt iv tg ct : List Nat) (hs : salt.length = 32)
    (hiv : iv.length = 16) :
    ((salt ++ iv ++ tg ++ ct).drop 32).take 16 = iv := by
  rw [List.append_assoc, List.append_assoc, List.drop_left' hs]
  rw [show iv ++ (tg ++ ct) = iv ++ tg ++ ct from (List.append_assoc iv tg ct).symm]
  rw [List.append_assoc, List.take_left' hiv]

/-- Running `encrypt` with an absent master key, or one shorter than 32 characters,
throws the generic encryption error (the internal configuration message is
swallowed by the catch-all). -/
theorem encrypt_shortKey (A : AEAD) (env : Option String) (r : Rand) (s : String)
    (h : ∀ mk, env = some mk → mk.length < 32) :
    EncryptionService.encrypt A env r s = Except.error "Error al cifrar los datos" := by
  cases env with
  | none => rfl
  | some mk =>
    rw [EncryptionService.encrypt, EncryptionService.encryptTry, if_pos (h mk rfl)]

/-- C1: with the master key present and of length at least 32, and for any
cipher pipeline satisfying the AEAD contract and any well-formed randomness,
`decrypt` applied to the `encrypted` blob of `encrypt s` returns `s`. -/
theorem claim1_roundtrip (A : AEAD) (mk : String) (r : Rand) (s : String)
    (hk : 32 ≤ mk.length) (hr : r.wf) (_hne : s ≠ "") :
    ∃ d, EncryptionService.encrypt A (some mk) r s = Except.ok d ∧
      EncryptionService.decrypt A (some mk) d.encrypted = Except.ok s := by
  refine ⟨_, encrypt_ok A mk r s hk, ?_⟩
  have hmk : mk ≠ "" := by
    intro h
    have h0 : mk.length = 0 := by rw [h]; rfl
    omega
  show EncryptionService.decrypt A (some mk)
      (b64Encode (r.salt ++ r.iv ++
        A.tagOf (A.kdf mk r.salt) (A.enc (A.kdf mk r.salt) s) ++
        A.enc (A.kdf mk r.salt) s)) = Except.ok s
  rw [decrypt_blob A mk hmk r.salt r.iv _ _ hr.1 hr.2.1 (A.tag_len _ _)
    (combined_bytes A _ r s hr)]
  rw [A.dec_enc]

/-- C1 witness: a concrete successful round trip. -/
theorem claim1_roundtrip_witness :
    EncryptionService.decrypt toyAEAD (some "0123456789abcdef0123456789abcdef")
      (EncryptionService.encrypt toyAEAD (some "0123456789abcdef0123456789abcdef")
        ⟨List.replicate 32 0, List.replicate 16 0⟩ "hi").toOption.get!.encrypted =
    Except.ok "hi" := by
  obtain ⟨d, hd, hdec⟩ := claim1_roundtrip toyAEAD "0123456789abcdef0123456789abcdef"
    ⟨List.replicate 32 0, List.replicate 16 0⟩ "hi" (by decide) (by decide) (by decide)
  rw [hd]
  exact hdec

/-- C4: a successful `encrypt` output decodes (base64) to exactly a 32-byte
salt, then the 16-byte IV, then a 16-byte tag, then the ciphertext, for every
plaintext and every (well-formed) outcome of the randomness. -/
theorem claim4_wire_format (A : AEAD) (mk : String) (r : Rand) (s : String)
    (d : EncryptedData) (hr : r.wf)
    (henc : EncryptionService.encrypt A (some mk) r s = Except.ok d) :
    ∃ tg ct : List Nat, b64Decode d.encrypted = r.salt ++ r.iv ++ tg ++ ct ∧
      r.salt.length = 32 ∧ r.iv.length = 16 ∧ tg.length = 16 := by
  by_cases hk : 32 ≤ mk.length
  · rw [encrypt_ok A mk r s hk] at henc
    injection henc with henc
    subst henc
    refine ⟨A.tagOf (A.kdf mk r.salt) (A.enc (A.kdf mk r.salt) s),
      A.enc (A.kdf mk r.salt) s, ?_, hr.1, hr.2.1, A.tag_len _ _⟩
    show b64Decode (b64Encode (r.salt ++ r.iv ++
        A.tagOf (A.kdf mk r.salt) (A.enc (A.kdf mk r.salt) s) ++
        A.enc (A.kdf mk r.salt) s)) = _
    exact b64Decode_encode _ (combined_bytes A _ r s hr)
  · rw [encrypt_shortKey A (some mk) r s (fun mk' e => by cases e; omega)] at henc
    cases henc

/-- C4 witness: the salt and IV regions of a concrete run are the drawn
randomness. -/
theorem claim4_wire_format_witness :
    (b64Decode (EncryptionService.encrypt toyAEAD
        (some "0123456789abcdef0123456789abcdef")
        ⟨List.replicate 32 1, List.replicate 16 2⟩ "hi").toOption.get!.encrypted).take 32 =
      List.replicate 32 1 ∧
    ((b64Decode (EncryptionService.encrypt toyAEAD
        (some "0123456789abcdef0123456789abcdef")
        ⟨List.replicate 32 1, List.replicate 16 2⟩ "hi").toOption.get!.encrypted).drop 32).take 16 =
      List.replicate 16 2 := by
  obtain ⟨tg, ct, heq, h32, h16, htg⟩ := claim4_wire_format toyAEAD
    "0123456789abcdef0123456789abcdef" ⟨List.replicate 32 1, List.replicate 16 2⟩
    "hi" _ (by decide) (by rfl)
  have hx : b64Decode (EncryptionService.encrypt toyAEAD
      (some "0123456789abcdef0123456789abcdef")
      ⟨List.replicate 32 1, List.replicate 16 2⟩ "hi").toOption.get!.encrypted =
      List.replicate 32 1 ++ List.replicate 16 2 ++ tg ++ ct := heq
  constructor
  · rw [hx]
    exact take_32_combined _ _ _ _ (by decide)
  · rw [hx]
    exact slice_iv_combined _ _ _ _ (by decide) (by decide)

/-- C8: two `encrypt` calls whose independently drawn salt or IV differ
produce different blobs (the salt and IV are embedded verbatim in the
blob). -/
theorem claim8_nondeterminism (A : AEAD) (mk : String) (r1 r2 : Rand) (s : String)
    (d1 d2 : EncryptedData) (h1 : r1.wf) (h2 : r2.wf)
    (hne : r1.salt ≠ r2.salt ∨ r1.iv ≠ r2.iv)
    (e1 : EncryptionService.encrypt A (some mk) r1 s = Except.ok d1)
    (e2 : EncryptionService.encrypt A (some mk) r2 s = Except.ok d2) :
    d1.encrypted ≠ d2.encrypted := by
  by_cases hk : 32 ≤ mk.length
  · rw [encrypt_ok A mk r1 s hk] at e1
    rw [encrypt_ok A mk r2 s hk] at e2
    injection e1 with e1
    injection e2 with e2
    subst e1 e2
    intro heq
    have hdec := congrArg b64Decode heq
    dsimp only at hdec
    rw [b64Decode_encode _ (combined_bytes A _ r1 s h1),
      b64Decode_encode _ (combined_bytes A _ r2 s h2)] at hdec
    rcases hne with hne | hne
    · have hsalt := congrArg (List.take 32) hdec
      rw [show List.take 32 (r1.salt ++ r1.iv ++
            A.tagOf (A.kdf mk r1.salt) (A.enc (A.kdf mk r1.salt) s) ++
            A.enc (A.kdf mk r1.salt) s) = r1.salt from
          take_32_combined _ _ _ _ h1.1,
        show List.take 32 (r2.salt ++ r2.iv ++
            A.tagOf (A.kdf mk r2.salt) (A.enc (A.kdf mk r2.salt) s) ++
            A.enc (A.kdf mk r2.salt) s) = r2.salt from
          take_32_combined _ _ _ _ h2.1] at hsalt
      exact hne hsalt
    · have hiv := congrArg (fun l => (List.drop 32 l).take 16) hdec
      dsimp only at hiv
      rw [show ((r1.salt ++ r1.iv ++
            A.tagOf (A.kdf mk r1.salt) (A.enc (A.kdf mk r1.salt) s) ++
            A.enc (A.kdf mk r1.salt) s).drop 32).take 16 = r1.iv from
          slice_iv_combined _ _ _ _ h1.1 h1.2.1,
        show ((r2.salt ++ r2.iv ++
            A.tagOf (A.kdf mk r2.salt) (A.enc (A.kdf mk r2.salt) s) ++
            A.enc (A.kdf mk r2.salt) s).drop 32).take 16 = r2.iv from
          slice_iv_combined _ _ _ _ h2.1 h2.2.1] at hiv
      exact hne hiv
  · rw [encrypt_shortKey A (some mk) r1 s (fun mk' e => by cases e; omega)] at e1
    cases e1

/-- C8 witness: two concrete calls with different salts give different
blobs. -/
theorem claim8_nondeterminism_witness :
    (EncryptionService.encrypt toyAEAD (some "0123456789abcdef0123456789abcdef")
        ⟨List.replicate 32 1, List.replicate 16 2⟩ "hi").toOption.get!.encrypted ≠
      (EncryptionService.encrypt toyAEAD (some "0123456789abcdef0123456789abcdef")
        ⟨List.replicate 32 3, List.replicate 16 2⟩ "hi").toOption.get!.encrypted :=
  claim8_nondeterminism toyAEAD "0123456789abcdef0123456789abcdef"
    ⟨List.replicate 32 1, List.replicate 16 2⟩ ⟨List.replicate 32 3, List.replicate 16 2⟩
    "hi" _ _ (by decide) (by decide) (Or.inl (by decide)) (by rfl) (by rfl)

/-! ## Lemmas locating a bit flip inside the blob -/

theorem set_append_left' :
    ∀ (l₁ l₂ : List Nat) (i v : Nat), i < l₁.length →
      (l₁ ++ l₂).set i v = l₁.set i v ++ l₂
  | [], _, i, v, h => by simp at h
  | a :: t, l₂, 0, v, _ => rfl
  | a :: t, l₂, i + 1, v, h => by
    show a :: (t ++ l₂).set i v = a :: (t.set i v ++ l₂)
    rw [set_append_left' t l₂ i v (by simpa using h)]

theorem set_append_right' :
    ∀ (l₁ l₂ : List Nat) (i v : Nat), l₁.length ≤ i →
      (l₁ ++ l₂).set i v = l₁ ++ l₂.set (i - l₁.length) v
  | [], l₂, i, v, _ => by simp
  | a :: t, l₂, 0, v, h => by simp at h
  | a :: t, l₂, i + 1, v, h => by
    show a :: (t ++ l₂).set i v = a :: (t ++ l₂.set (i + 1 - (t.length + 1)) v)
    rw [Nat.succ_sub_succ, set_append_right' t l₂ i v (by simpa using h)]

theorem getD_set_self :
    ∀ (l : List Nat) (i v : Nat), i < l.length → (l.set i v).getD i 0 = v
  | [], i, v, h => by simp at h
  | a :: t, 0, v, _ => rfl
  | a :: t, i + 1, v, h => getD_set_self t i v (by simpa using h)

theorem mem_set_or :
    ∀ (l : List Nat) (i v b : Nat), b ∈ l.set i v → b ∈ l ∨ b = v
  | [], _, _, b, h => Or.inl h
  | a :: t, 0, v, b, h => by
    rcases List.mem_cons.mp h with rfl | hb
    · exact Or.inr rfl
    · exact Or.inl (List.mem_cons_of_mem a hb)
  | a :: t, i + 1, v, b, h => by
    rcases List.mem_cons.mp h with rfl | hb
    · exact Or.inl (List.mem_cons_self b t)
    · rcases mem_set_or t i v b hb with hb | hb
      · exact Or.inl (List.mem_cons_of_mem a hb)
      · exact Or.inr hb

theorem getD_lt_of_forall (l : List Nat) (i : Nat) (hi : i < l.length)
    (h : ∀ b ∈ l, b < 256) : l.getD i 0 < 256 := by
  rw [List.getD_eq_getElem l 0 hi]
  exact h _ (List.getElem_mem hi)

theorem flipBit_ne (l : List Nat) (i j : Nat) (hi : i < l.length) :
    flipBit l i j ≠ l := by
  intro h
  have hd := congrArg (fun l' => l'.getD i 0) h
  dsimp only at hd
  rw [flipBit, getD_set_self l i _ hi] at hd
  exact flipByte_ne (l.getD i 0) j hd

theorem flipBit_bytes (l : List Nat) (i j : Nat) (hj : j < 8)
    (h : ∀ b ∈ l, b < 256) : ∀ b ∈ flipBit l i j, b < 256 := by
  intro b hb
  rcases mem_set_or l i _ b hb with hb | rfl
  · exact h b hb
  · rcases Nat.lt_or_ge i l.length with hi | hi
    · exact flipByte_lt _ j (getD_lt_of_forall l i hi h) hj
    · rw [List.getD_eq_default _ _ hi]
      exact flipByte_lt 0 j (by omega) hj

/-- C3 counterexample input: a blob crafted for the derived key of the
5-character master key "short". -/
def shortKeyBlob : String :=
  b64Encode (List.replicate 32 7 ++ List.replicate 16 9 ++
    toyTag ("short".length :: List.replicate 32 7) (bytesOfChars "hi".data) ++
    bytesOfChars "hi".data)

/-- C3 counterexample: with the master key "short" (5 characters, far below
the 32-character minimum) `decrypt` does not fail with any error at all — it
runs the cipher and returns a plaintext — because `decrypt` checks only that
the key is present, never its length. -/
theorem claim3_counterexample :
    EncryptionService.decrypt toyAEAD (some "short") shortKeyBlob = Except.ok "hi" ∧
    "short".length < 32 := by
  constructor
  · rfl
  · decide

/-- C3 amended: `encrypt` with an absent or short master key fails before any
cipher operation (the result does not depend on the cipher or on the
randomness), but with the generic encryption error — the internal
configuration message is swallowed by the catch-all, so the failure is not a
distinct configuration error.  `decrypt` rejects only an absent master key
(again with its generic error, independently of the cipher); it does not
enforce the 32-character minimum. -/
theorem claim3_amended :
    (∀ (A : AEAD) (env : Option String) (r : Rand) (s : String),
      (env = none ∨ ∃ mk, env = some mk ∧ mk.length < 32) →
      EncryptionService.encrypt A env r s =
        Except.error "Error al cifrar los datos") ∧
    (∀ (A A' : AEAD) (env : Option String) (r r' : Rand) (s : String),
      (env = none ∨ ∃ mk, env = some mk ∧ mk.length < 32) →
      EncryptionService.encrypt A env r s = EncryptionService.encrypt A' env r' s) ∧
    (∀ (A : AEAD) (s : String),
      EncryptionService.decrypt A none s =
        Except.error "Error al descifrar los datos") ∧
    (∀ (A A' : AEAD) (s : String),
      EncryptionService.decrypt A none s = EncryptionService.decrypt A' none s) := by
  have henc : ∀ (A : AEAD) (env : Option String) (r : Rand) (s : String),
      (env = none ∨ ∃ mk, env = some mk ∧ mk.length < 32) →
      EncryptionService.encrypt A env r s =
        Except.error "Error al cifrar los datos" := by
    intro A env r s h
    rcases h with rfl | ⟨mk, rfl, hlt⟩
    · rfl
    · exact encrypt_shortKey A (some mk) r s (fun mk' e => by cases e; omega)
  refine ⟨henc, fun A A' env r r' s h => ?_, fun A s => rfl, fun A A' s => rfl⟩
  rw [henc A env r s h, henc A' env r' s h]

/-- C3 amended, witness. -/
theorem claim3_amended_witness :
    EncryptionService.encrypt toyAEAD (some "short") ⟨[], []⟩ "hi" =
      Except.error "Error al cifrar los datos" :=
  claim3_amended.1 toyAEAD (some "short") ⟨[], []⟩ "hi"
    (Or.inr ⟨"short", rfl, by decide⟩)

theorem flipBit_append_left (l₁ l₂ : List Nat) (i j : Nat) (h : i < l₁.length) :
    flipBit (l₁ ++ l₂) i j = flipBit l₁ i j ++ l₂ := by
  rw [flipBit, flipBit, List.getD_append l₁ l₂ 0 i h, set_append_left' l₁ l₂ i _ h]

theorem flipBit_append_right (l₁ l₂ : List Nat) (i j : Nat) (h : l₁.length ≤ i) :
    flipBit (l₁ ++ l₂) i j = l₁ ++ flipBit l₂ (i - l₁.length) j := by
  rw [flipBit, flipBit, List.getD_append_right l₁ l₂ 0 i h, set_append_right' l₁ l₂ i _ h]

/-- Decryption of a blob whose tag or ciphertext region has a flipped bit
fails, for any ciphertext: a flip in the tag region (48 ≤ i < 64) breaks tag
verification directly, a flip in the ciphertext region changes the tag the
cipher recomputes. -/
theorem decrypt_flip_fails (A : AEAD) (mk : String) (hmk : mk ≠ "")
    (salt iv ct : List Nat) (i j : Nat)
    (hs : salt.length = 32) (hiv : iv.length = 16)
    (hsb : ∀ b ∈ salt, b < 256) (hivb : ∀ b ∈ iv, b < 256)
    (hctb : ∀ b ∈ ct, b < 256)
    (hi : 48 ≤ i) (hilen : i < 64 + ct.length) (hj : j < 8) :
    EncryptionService.decrypt A (some mk)
      (b64Encode (flipBit (salt ++ iv ++ A.tagOf (A.kdf mk salt) ct ++ ct) i j)) =
      Except.error "Error al descifrar los datos" := by
  have htgl : (A.tagOf (A.kdf mk salt) ct).length = 16 := A.tag_len _ _
  have htgb : ∀ b ∈ A.tagOf (A.kdf mk salt) ct, b < 256 := A.tag_lt _ _
  have hXb : ∀ b ∈ salt ++ iv ++ A.tagOf (A.kdf mk salt) ct ++ ct, b < 256 := by
    intro b hb
    simp only [List.mem_append] at hb
    rcases hb with ((hb | hb) | hb) | hb
    · exact hsb b hb
    · exact hivb b hb
    · exact htgb b hb
    · exact hctb b hb
  have h48 : (salt ++ iv).length = 48 := by simp [hs, hiv]
  rcases Nat.lt_or_ge i 64 with hi64 | hi64
  · -- flip inside the 16-byte tag region
    have e1 : flipBit (salt ++ iv ++ A.tagOf (A.kdf mk salt) ct ++ ct) i j =
        salt ++ iv ++ flipBit (A.tagOf (A.kdf mk salt) ct) (i - 48) j ++ ct := by
      rw [show salt ++ iv ++ A.tagOf (A.kdf mk salt) ct ++ ct =
          (salt ++ iv) ++ (A.tagOf (A.kdf mk salt) ct ++ ct) from
        List.append_assoc _ _ _]
      rw [flipBit_append_right _ _ i j (by omega), h48]
      rw [flipBit_append_left _ _ (i - 48) j (by omega)]
      rw [← List.append_assoc]
    have hfb : ∀ b ∈ salt ++ iv ++
        flipBit (A.tagOf (A.kdf mk salt) ct) (i - 48) j ++ ct, b < 256 := by
      rw [← e1]
      exact flipBit_bytes _ i j hj hXb
    rw [e1, decrypt_blob A mk hmk salt iv _ _ hs hiv
      (by rw [length_flipBit, htgl]) hfb]
    rcases hdm : A.dec (A.kdf mk salt)
        (flipBit (A.tagOf (A.kdf mk salt) ct) (i - 48) j) ct with _ | m
    · rfl
    · exfalso
      have hAuth := A.dec_auth _ _ _ _ hdm
      exact flipBit_ne (A.tagOf (A.kdf mk salt) ct) (i - 48) j (by omega) hAuth
  · -- flip inside the ciphertext region
    have h64 : (salt ++ iv ++ A.tagOf (A.kdf mk salt) ct).length = 64 := by
      simp [hs, hiv, htgl]
    have e1 : flipBit (salt ++ iv ++ A.tagOf (A.kdf mk salt) ct ++ ct) i j =
        salt ++ iv ++ A.tagOf (A.kdf mk salt) ct ++ flipBit ct (i - 64) j := by
      rw [flipBit_append_right _ _ i j (by omega), h64]
    have hfb : ∀ b ∈ salt ++ iv ++ A.tagOf (A.kdf mk salt) ct ++
        flipBit ct (i - 64) j, b < 256 := by
      rw [← e1]
      exact flipBit_bytes _ i j hj hXb
    rw [e1, decrypt_blob A mk hmk salt iv _ _ hs hiv htgl hfb]
    rcases hdm : A.dec (A.kdf mk salt) (A.tagOf (A.kdf mk salt) ct)
        (flipBit ct (i - 64) j) with _ | m
    · rfl
    · exfalso
      have hAuth := A.dec_auth _ _ _ _ hdm
      exact A.tag_flip (A.kdf mk salt) ct (i - 64) j (by omega) hj hAuth.symm

/-- C2 amended: flipping any single bit of the tag or ciphertext region of a
blob produced by `encrypt` makes `decrypt` fail — so it never returns a wrong
plaintext — but the failure carries the generic decryption error, identical
to the error raised for a missing key: no distinguishable authentication
error exists in the code. -/
theorem claim2_tamper_amended (A : AEAD) (mk : String) (r : Rand) (s : String)
    (i j : Nat) (hr : r.wf) (hk : 32 ≤ mk.length) (hi : 48 ≤ i)
    (hilen : i < 64 + (A.enc (A.kdf mk r.salt) s).length) (hj : j < 8) :
    ∃ d, EncryptionService.encrypt A (some mk) r s = Except.ok d ∧
      EncryptionService.decrypt A (some mk)
        (b64Encode (flipBit (b64Decode d.encrypted) i j)) =
        Except.error "Error al descifrar los datos" := by
  refine ⟨_, encrypt_ok A mk r s hk, ?_⟩
  have hmk : mk ≠ "" := by
    intro h
    have h0 : mk.length = 0 := by rw [h]; rfl
    omega
  show EncryptionService.decrypt A (some mk)
      (b64Encode (flipBit (b64Decode (b64Encode (r.salt ++ r.iv ++
        A.tagOf (A.kdf mk r.salt) (A.enc (A.kdf mk r.salt) s) ++
        A.enc (A.kdf mk r.salt) s))) i j)) =
      Except.error "Error al descifrar los datos"
  rw [b64Decode_encode _ (combined_bytes A _ r s hr)]
  exact decrypt_flip_fails A mk hmk r.salt r.iv (A.enc (A.kdf mk r.salt) s) i j
    hr.1 hr.2.1 hr.2.2.1 hr.2.2.2 (A.enc_lt _ _) hi hilen hj

/-- C2 amended, witness: a concrete flipped blob fails to decrypt. -/
theorem claim2_tamper_amended_witness :
    EncryptionService.decrypt toyAEAD (some "0123456789abcdef0123456789abcdef")
      (b64Encode (flipBit (b64Decode (EncryptionService.encrypt toyAEAD
        (some "0123456789abcdef0123456789abcdef")
        ⟨List.replicate 32 1, List.replicate 16 2⟩
        "hi").toOption.get!.encrypted) 48 0)) =
    Except.error "Error al descifrar los datos" := by
  obtain ⟨d, hd, hflip⟩ := claim2_tamper_amended toyAEAD
    "0123456789abcdef0123456789abcdef" ⟨List.replicate 32 1, List.replicate 16 2⟩
    "hi" 48 0 (by decide) (by decide) (by decide) (by decide) (by decide)
  rw [hd]
  exact hflip

/-- C2 counterexample input: a concrete blob produced by `encrypt` with bit 0
of byte 48 (the first tag byte) flipped. -/
def c2Flipped : String :=
  b64Encode (flipBit (b64Decode (EncryptionService.encrypt toyAEAD
    (some "0123456789abcdef0123456789abcdef")
    ⟨List.replicate 32 1, List.replicate 16 2⟩ "hi").toOption.get!.encrypted) 48 0)

/-- C2 counterexample: the error raised for the tampered blob is the very
same value as the error raised for a missing master key, so the tamper
failure is not distinguishable from a configuration failure — there is no
separate authentication error. -/
theorem claim2_counterexample :
    EncryptionService.decrypt toyAEAD (some "0123456789abcdef0123456789abcdef")
        c2Flipped = Except.error "Error al descifrar los datos" ∧
      EncryptionService.decrypt toyAEAD none c2Flipped =
        Except.error "Error al descifrar los datos" :=
  ⟨rfl, rfl⟩

/-! ## C10: the hook fires only for the five UserProfile operations -/

/-- C10: for every params whose model is not exactly UserProfile or whose
action is not exactly one of create, update, findUnique, findFirst, findMany
(for example upsert, updateMany, createMany), the middleware passes the
arguments to `next` unchanged and returns its result unchanged, so sensitive
plaintext fields in such writes reach storage unencrypted. -/
theorem claim10_passthrough (encFn decFn : String → Except String String)
    (p : Params) (next : Params → DBResult)
    (h : ¬(p.model = "UserProfile" ∧ (p.action = "create" ∨ p.action = "update" ∨
      p.action = "findUnique" ∨ p.action = "findFirst" ∨ p.action = "findMany"))) :
    createEncryptionMiddleware encFn decFn p next = Except.ok (next p) := by
  have h1 : ¬((p.action = "create" ∨ p.action = "update") ∧ p.model = "UserProfile") := by
    rintro ⟨ha, hm⟩
    exact h ⟨hm, by tauto⟩
  have h2 : ¬((p.action = "findUnique" ∨ p.action = "findFirst" ∨
      p.action = "findMany") ∧ p.model = "UserProfile") := by
    rintro ⟨ha, hm⟩
    exact h ⟨hm, by tauto⟩
  rw [createEncryptionMiddleware, if_neg h1]
  show (if (p.action = "findUnique" ∨ p.action = "findFirst" ∨
      p.action = "findMany") ∧ p.model = "UserProfile" then
    Except.ok
      (match next p with
        | DBResult.null => DBResult.null
        | DBResult.one item => DBResult.one (decryptItem decFn sensitiveFields item)
        | DBResult.many items =>
          DBResult.many (items.map (decryptItem decFn sensitiveFields)))
    else Except.ok (next p)) = Except.ok (next p)
  rw [if_neg h2]

/-- C10 witness: an upsert on UserProfile with a plaintext phone passes
through untouched. -/
theorem claim10_passthrough_witness :
    createEncryptionMiddleware (fun s => Except.ok s) (fun s => Except.ok s)
      ⟨"UserProfile", "upsert", some [("phone", Value.str "123")]⟩
      (fun _ => DBResult.null) = Except.ok DBResult.null :=
  claim10_passthrough (fun s => Except.ok s) (fun s => Except.ok s)
    ⟨"UserProfile", "upsert", some [("phone", Value.str "123")]⟩
    (fun _ => DBResult.null) (by decide)

/-! ## C9: isEncrypted -/

/-- C9 exhibit: 88 valid base64 characters followed by a character that is
not in the base64 alphabet; it decodes to 66 bytes, yet no `encrypt` output
ever contains such a character. -/
def c9Str : String := String.mk (List.replicate 88 'A' ++ ['!'])

/-- C9: `isEncrypted s` is true exactly when the base64 decoding of `s`
yields at least 65 = saltLength + ivLength + tagLength + 1 bytes (it is a
total function of that decoded length, so it never throws), and it accepts
strings that `encrypt` never produced, such as `c9Str`. -/
theorem claim9_isEncrypted :
    (∀ s : String, EncryptionService.isEncrypted s = true ↔
      65 ≤ (b64Decode s).length) ∧
    EncryptionService.isEncrypted c9Str = true ∧
    (∀ (A : AEAD) (env : Option String) (r : Rand) (s : String) (d : EncryptedData),
      r.wf → EncryptionService.encrypt A env r s = Except.ok d →
      d.encrypted ≠ c9Str) := by
  refine ⟨fun s => ?_, by decide, ?_⟩
  · rw [EncryptionService.isEncrypted]
    show decide (32 + 16 + 16 + 1 ≤ (b64Decode s).length) = true ↔ _
    rw [decide_eq_true_iff]
  · intro A env r s d hr henc heq
    cases env with
    | none => exact Except.noConfusion henc
    | some mk =>
      by_cases hk : 32 ≤ mk.length
      · rw [encrypt_ok A mk r s hk] at henc
        injection henc with henc
        subst henc
        have hbang : '!' ∈ (b64Encode (r.salt ++ r.iv ++
            A.tagOf (A.kdf mk r.salt) (A.enc (A.kdf mk r.salt) s) ++
            A.enc (A.kdf mk r.salt) s)).toList := by
          have : (b64Encode (r.salt ++ r.iv ++
              A.tagOf (A.kdf mk r.salt) (A.enc (A.kdf mk r.salt) s) ++
              A.enc (A.kdf mk r.salt) s)).toList = c9Str.toList :=
            congrArg String.toList heq
          rw [this]
          show '!' ∈ List.replicate 88 'A' ++ ['!']
          simp
        have := b64EncodeList_chars _ (combined_bytes A _ r s hr) '!' hbang
        rcases this with hin | hpad
        · exact absurd hin (by decide)
        · exact absurd hpad (by decide)
      · rw [encrypt_shortKey A (some mk) r s (fun mk' e => by cases e; omega)] at henc
        exact Except.noConfusion henc

/-- C9 witness: a concrete `encrypt` output differs from `c9Str`, and the
threshold behaviour on it. -/
theorem claim9_isEncrypted_witness :
    EncryptionService.isEncrypted c9Str = true ∧
    (EncryptionService.encrypt toyAEAD (some "0123456789abcdef0123456789abcdef")
        ⟨List.replicate 32 1, List.replicate 16 2⟩ "hi").toOption.get!.encrypted ≠
      c9Str :=
  ⟨claim9_isEncrypted.2.1,
    claim9_isEncrypted.2.2 toyAEAD (some "0123456789abcdef0123456789abcdef")
      ⟨List.replicate 32 1, List.replicate 16 2⟩ "hi" _ (by decide) (by rfl)⟩

/-! ## C5: encryptObject -/

theorem str_append_ne (f : String) : f ≠ f ++ "Encrypted" := by
  intro h
  have hl := congrArg String.length h
  rw [String.length_append] at hl
  have h9 : ("Encrypted" : String).length = 9 := rfl
  omega

theorem str_append_cancel (f g : String) (h : f ++ "Encrypted" = g ++ "Encrypted") :
    f = g := by
  have hd := congrArg String.data h
  rw [String.data_append, String.data_append] at hd
  have h2 := List.append_cancel_right hd
  cases f with
  | mk fd =>
    cases g with
    | mk gd => exact congrArg String.mk h2

/-- The condition of the `encryptObject` loop body on a field: present with a
truthy (non-empty) string value. -/
def encryptableAt (obj : Obj) (f : String) : Prop :=
  ∃ s, getV obj f = some (Value.str s) ∧ s ≠ ""

theorem encObjStep_frame (encFn : String → Except String String)
    (obj acc acc2 : Obj) (g k : String)
    (hstep : EncryptionService.encObjStep encFn obj acc g = Except.ok acc2)
    (hk : encryptableAt obj g → k ≠ g ∧ k ≠ g ++ "Encrypted") :
    getV acc2 k = getV acc k := by
  unfold EncryptionService.encObjStep at hstep
  cases hv : getV obj g with
  | none =>
    rw [hv] at hstep
    injection hstep with h
    rw [← h]
  | some v =>
    cases v with
    | other a b =>
      rw [hv] at hstep
      injection hstep with h
      rw [← h]
    | str s =>
      rw [hv] at hstep
      replace hstep : (if s = "" then Except.ok acc
          else Except.map
            (fun blob => delV (setV acc (g ++ "Encrypted") (Value.str blob)) g)
            (encFn s)) = Except.ok acc2 := hstep
      by_cases hs : s = ""
      · rw [if_pos hs] at hstep
        injection hstep with h
        rw [← h]
      · rw [if_neg hs] at hstep
        obtain ⟨hk1, hk2⟩ := hk ⟨s, hv, hs⟩
        cases hfn : encFn s with
        | error e => rw [hfn] at hstep; simp [Except.map] at hstep
        | ok blob =>
          rw [hfn] at hstep
          simp only [Except.map, Except.ok.injEq] at hstep
          rw [← hstep, getV_delV, if_neg hk1, getV_setV, if_neg hk2]

theorem encObjStep_enc (encFn : String → Except String String)
    (obj acc : Obj) (g s : String)
    (hv : getV obj g = some (Value.str s)) (hs : s ≠ "") :
    EncryptionService.encObjStep encFn obj acc g = (encFn s).map
      (fun blob => delV (setV acc (g ++ "Encrypted") (Value.str blob)) g) := by
  unfold EncryptionService.encObjStep
  rw [hv]
  show (if s = "" then Except.ok acc
      else Except.map
        (fun blob => delV (setV acc (g ++ "Encrypted") (Value.str blob)) g)
        (encFn s)) =
    Except.map (fun blob => delV (setV acc (g ++ "Encrypted") (Value.str blob)) g)
      (encFn s)
  rw [if_neg hs]

theorem encObjLoop_frame :
    ∀ (fields : List String) (encFn : String → Except String String)
      (obj acc res : Obj) (k : String),
      EncryptionService.encryptObjectLoop encFn obj acc fields = Except.ok res →
      (∀ g ∈ fields, encryptableAt obj g → k ≠ g ∧ k ≠ g ++ "Encrypted") →
      getV res k = getV acc k
  | [], _, _, acc, res, k, hfold, _ => by
    injection hfold with h
    rw [h]
  | g :: rest, encFn, obj, acc, res, k, hfold, hk => by
    rw [EncryptionService.encryptObjectLoop] at hfold
    cases hstep : EncryptionService.encObjStep encFn obj acc g with
    | error e =>
      rw [hstep] at hfold
      exact Except.noConfusion hfold
    | ok acc2 =>
      rw [hstep] at hfold
      have ih := encObjLoop_frame rest encFn obj acc2 res k hfold
        (fun g2 h2 he => hk g2 (List.mem_cons_of_mem g h2) he)
      rw [ih]
      exact encObjStep_frame encFn obj acc acc2 g k hstep
        (fun he => hk g (List.mem_cons_self g rest) he)

theorem encObjLoop_enc :
    ∀ (fields : List String) (encFn : String → Except String String)
      (obj acc res : Obj) (f s : String),
      EncryptionService.encryptObjectLoop encFn obj acc fields = Except.ok res →
      (∀ g1 ∈ fields, ∀ g2 ∈ fields, g1 ≠ g2 ++ "Encrypted") →
      f ∈ fields → getV obj f = some (Value.str s) → s ≠ "" →
      getV res f = none ∧
        ∃ b, encFn s = Except.ok b ∧
          getV res (f ++ "Encrypted") = some (Value.str b)
  | [], _, _, _, _, _, _, _, _, hf, _, _ => absurd hf (by simp)
  | g :: rest, encFn, obj, acc, res, f, s, hfold, hSep, hf, hv, hs => by
    rw [EncryptionService.encryptObjectLoop] at hfold
    have hSepR : ∀ g1 ∈ rest, ∀ g2 ∈ rest, g1 ≠ g2 ++ "Encrypted" :=
      fun g1 h1 g2 h2 =>
        hSep g1 (List.mem_cons_of_mem g h1) g2 (List.mem_cons_of_mem g h2)
    by_cases hgf : g = f
    · subst hgf
      rw [encObjStep_enc encFn obj acc g s hv hs] at hfold
      cases hfn : encFn s with
      | error e =>
        rw [hfn] at hfold
        exact Except.noConfusion hfold
      | ok b =>
        rw [hfn] at hfold
        by_cases hf2 : g ∈ rest
        · obtain ⟨h1, b2, hb2, h3⟩ :=
            encObjLoop_enc rest encFn obj _ res g s hfold hSepR hf2 hv hs
          refine ⟨h1, b2, ?_, h3⟩
          rw [← hfn]
          exact hb2
        · have hresF := encObjLoop_frame rest encFn obj
            (delV (setV acc (g ++ "Encrypted") (Value.str b)) g) res g hfold
            (fun g2 h2 _ => ⟨fun heq => hf2 (heq ▸ h2),
              hSep g (List.mem_cons_self g rest) g2 (List.mem_cons_of_mem g h2)⟩)
          have hresFE := encObjLoop_frame rest encFn obj
            (delV (setV acc (g ++ "Encrypted") (Value.str b)) g) res
            (g ++ "Encrypted") hfold
            (fun g2 h2 _ =>
              ⟨fun heq =>
                (hSep g2 (List.mem_cons_of_mem g h2) g (List.mem_cons_self g rest))
                  heq.symm,
              fun heq => hf2 ((str_append_cancel g g2 heq) ▸ h2)⟩)
          rw [hresF, hresFE]
          constructor
          · rw [getV_delV, if_pos rfl]
          · refine ⟨b, rfl, ?_⟩
            rw [getV_delV, if_neg (fun heq => str_append_ne g heq.symm),
              getV_setV, if_pos rfl]
    · have hf2 : f ∈ rest := by
        rcases List.mem_cons.mp hf with h | h
        · exact absurd h.symm hgf
        · exact h
      cases hstep : EncryptionService.encObjStep encFn obj acc g with
      | error e =>
        rw [hstep] at hfold
        exact Except.noConfusion hfold
      | ok acc2 =>
        rw [hstep] at hfold
        exact encObjLoop_enc rest encFn obj acc2 res f s hfold hSepR hf2 hv hs

/-- C5 amended: provided no listed field name is itself the `Encrypted`
counterpart of a listed field, a successful `encryptObject` (i) leaves every
key untouched that is neither an encryptable listed field nor the
`<g>Encrypted` counterpart of an encryptable listed field — in particular
listed fields that are absent, non-string or empty are skipped without error,
and fields not in the list and not named `<g>Encrypted` keep their value —
and (ii) replaces each listed field holding a present non-empty string by
`<field>Encrypted` bound to the blob, with no `<field>` key remaining. -/
theorem claim5_encryptObject_amended (encFn : String → Except String String)
    (obj res : Obj) (fields : List String)
    (hSep : ∀ g1 ∈ fields, ∀ g2 ∈ fields, g1 ≠ g2 ++ "Encrypted")
    (hok : EncryptionService.encryptObject encFn obj fields = Except.ok res) :
    (∀ k, (∀ g ∈ fields, encryptableAt obj g → k ≠ g ∧ k ≠ g ++ "Encrypted") →
      getV res k = getV obj k) ∧
    (∀ f s, f ∈ fields → getV obj f = some (Value.str s) → s ≠ "" →
      getV res f = none ∧
        ∃ b, encFn s = Except.ok b ∧
          getV res (f ++ "Encrypted") = some (Value.str b)) :=
  ⟨fun k hk => encObjLoop_frame fields encFn obj obj res k hok hk,
   fun f s hf hv hs => encObjLoop_enc fields encFn obj obj res f s hok hSep hf hv hs⟩

/-- A concrete `this.encrypt(...).encrypted` for the object-level runs. -/
def c5EncFn (s : String) : Except String String :=
  (EncryptionService.encrypt toyAEAD (some "0123456789abcdef0123456789abcdef")
    ⟨List.replicate 32 1, List.replicate 16 2⟩ s).map EncryptedData.encrypted

def c5Obj : Obj := [("firstName", Value.str "Dana"), ("other", Value.str "x")]

def c5Res : Obj :=
  (EncryptionService.encryptObject c5EncFn c5Obj ["firstName"]).toOption.getD []

/-- C5 amended, witness: the spec example `{firstName: "Dana", other: "x"}`
with list `["firstName"]`. -/
theorem claim5_encryptObject_amended_witness :
    getV c5Res "other" = some (Value.str "x") ∧ getV c5Res "firstName" = none := by
  have h := claim5_encryptObject_amended c5EncFn c5Obj c5Res ["firstName"]
    (by decide) (by rfl)
  constructor
  · rw [h.1 "other" (by
      intro g hg _
      have hg2 : g = "firstName" := by simpa using hg
      subst hg2
      exact ⟨by decide, by decide⟩)]
    decide
  · exact (h.2 "firstName" "Dana" (by simp) (by rfl) (by decide)).1

def c5CexObj : Obj :=
  [("firstName", Value.str "Dana"), ("firstNameEncrypted", Value.str "old"),
    ("other", Value.str "x")]

def c5CexRes : Obj :=
  (EncryptionService.encryptObject c5EncFn c5CexObj ["firstName"]).toOption.getD []

/-- C5 counterexample: the key `firstNameEncrypted` is not in the field list
`["firstName"]`, yet `encryptObject` changes its value (it is overwritten by
the fresh blob), refuting "every field not in the list is returned with its
value unchanged". -/
theorem claim5_counterexample :
    getV c5CexObj "firstNameEncrypted" = some (Value.str "old") ∧
    ("firstNameEncrypted" ∈ (["firstName"] : List String)) = False ∧
    getV c5CexRes "firstNameEncrypted" ≠ some (Value.str "old") := by
  refine ⟨by decide, by simp, by decide⟩

/-! ## C6: the read path of the middleware -/

theorem decStep_frame (decFn : String → Except String String) (it : Obj)
    (g k : String) (h1 : k ≠ g) (h2 : k ≠ g ++ "Encrypted") :
    getV (decStep decFn it g) k = getV it k := by
  unfold decStep
  cases hv : getV it (g ++ "Encrypted") with
  | none => rfl
  | some v =>
    cases v with
    | other a b => rfl
    | str s =>
      show getV (if s = "" then it else
        match decFn s with
        | Except.ok plain => delV (setV it g (Value.str plain)) (g ++ "Encrypted")
        | Except.error _ => it) k = getV it k
      by_cases hs : s = ""
      · rw [if_pos hs]
      · rw [if_neg hs]
        cases hfn : decFn s with
        | error e => rfl
        | ok plain =>
          show getV (delV (setV it g (Value.str plain)) (g ++ "Encrypted")) k =
            getV it k
          rw [getV_delV, if_neg h2, getV_setV, if_neg h1]

theorem decStep_fail (decFn : String → Except String String) (it : Obj)
    (f s e : String) (hv : getV it (f ++ "Encrypted") = some (Value.str s))
    (hs : s ≠ "") (hfn : decFn s = Except.error e) :
    decStep decFn it f = it := by
  unfold decStep
  rw [hv]
  show (if s = "" then it else
    match decFn s with
    | Except.ok plain => delV (setV it f (Value.str plain)) (f ++ "Encrypted")
    | Except.error _ => it) = it
  rw [if_neg hs, hfn]

theorem decStep_succ (decFn : String → Except String String) (it : Obj)
    (f s d : String) (hv : getV it (f ++ "Encrypted") = some (Value.str s))
    (hs : s ≠ "") (hfn : decFn s = Except.ok d) :
    decStep decFn it f = delV (setV it f (Value.str d)) (f ++ "Encrypted") := by
  unfold decStep
  rw [hv]
  show (if s = "" then it else
    match decFn s with
    | Except.ok plain => delV (setV it f (Value.str plain)) (f ++ "Encrypted")
    | Except.error _ => it) = delV (setV it f (Value.str d)) (f ++ "Encrypted")
  rw [if_neg hs, hfn]

theorem decStep_done (decFn : String → Except String String) (it : Obj)
    (f : String) (hv : getV it (f ++ "Encrypted") = none) :
    decStep decFn it f = it := by
  unfold decStep
  rw [hv]

theorem decItemLoop_frame :
    ∀ (fields : List String) (decFn : String → Except String String)
      (it : Obj) (k : String),
      (∀ g ∈ fields, k ≠ g ∧ k ≠ g ++ "Encrypted") →
      getV (decryptItemLoop decFn it fields) k = getV it k
  | [], _, _, _, _ => rfl
  | g :: rest, decFn, it, k, hk => by
    show getV (decryptItemLoop decFn (decStep decFn it g) rest) k = getV it k
    rw [decItemLoop_frame rest decFn _ k
      (fun g2 h2 => hk g2 (List.mem_cons_of_mem g h2))]
    exact decStep_frame decFn it g k (hk g (List.mem_cons_self g rest)).1
      (hk g (List.mem_cons_self g rest)).2

theorem decItemLoop_done :
    ∀ (fields : List String) (decFn : String → Except String String)
      (it : Obj) (f : String),
      (∀ g ∈ fields, f ≠ g ++ "Encrypted" ∧ g ≠ f ++ "Encrypted") →
      getV it (f ++ "Encrypted") = none →
      getV (decryptItemLoop decFn it fields) f = getV it f ∧
        getV (decryptItemLoop decFn it fields) (f ++ "Encrypted") = none
  | [], _, _, _, _, hv => ⟨rfl, hv⟩
  | g :: rest, decFn, it, f, hsep, hv => by
    have hsepR : ∀ g2 ∈ rest, f ≠ g2 ++ "Encrypted" ∧ g2 ≠ f ++ "Encrypted" :=
      fun g2 h2 => hsep g2 (List.mem_cons_of_mem g h2)
    rw [decryptItemLoop]
    by_cases hgf : g = f
    · subst hgf
      rw [decStep_done decFn it g hv]
      exact decItemLoop_done rest decFn it g hsepR hv
    · have h1 : f ≠ g := fun h => hgf h.symm
      have hpf : getV (decStep decFn it g) f = getV it f :=
        decStep_frame decFn it g f h1 (hsep g (List.mem_cons_self g rest)).1
      have hpfe : getV (decStep decFn it g) (f ++ "Encrypted") =
          getV it (f ++ "Encrypted") :=
        decStep_frame decFn it g (f ++ "Encrypted")
          (fun h => (hsep g (List.mem_cons_self g rest)).2 h.symm)
          (fun h => hgf (str_append_cancel f g h).symm)
      obtain ⟨p1, p2⟩ := decItemLoop_done rest decFn (decStep decFn it g) f hsepR
        (by rw [hpfe]; exact hv)
      exact ⟨p1.trans hpf, p2⟩

theorem decItemLoop_fail :
    ∀ (fields : List String) (decFn : String → Except String String)
      (it : Obj) (f s e : String),
      f ∈ fields →
      (∀ g ∈ fields, f ≠ g ++ "Encrypted" ∧ g ≠ f ++ "Encrypted") →
      getV it (f ++ "Encrypted") = some (Value.str s) → s ≠ "" →
      decFn s = Except.error e →
      getV (decryptItemLoop decFn it fields) (f ++ "Encrypted") =
          some (Value.str s) ∧
        getV (decryptItemLoop decFn it fields) f = getV it f
  | [], _, _, _, _, _, hf, _, _, _, _ => absurd hf (by simp)
  | g :: rest, decFn, it, f, s, e, hf, hsep, hv, hs, hfn => by
    have hsepR : ∀ g2 ∈ rest, f ≠ g2 ++ "Encrypted" ∧ g2 ≠ f ++ "Encrypted" :=
      fun g2 h2 => hsep g2 (List.mem_cons_of_mem g h2)
    rw [decryptItemLoop]
    by_cases hgf : g = f
    · subst hgf
      rw [decStep_fail decFn it g s e hv hs hfn]
      by_cases hf2 : g ∈ rest
      · exact decItemLoop_fail rest decFn it g s e hf2 hsepR hv hs hfn
      · constructor
        · rw [decItemLoop_frame rest decFn it (g ++ "Encrypted")
            (fun g2 h2 => ⟨fun h => (hsepR g2 h2).2 h.symm,
              fun h => hf2 ((str_append_cancel g g2 h) ▸ h2)⟩)]
          exact hv
        · rw [decItemLoop_frame rest decFn it g
            (fun g2 h2 => ⟨fun h => hf2 (h ▸ h2), (hsepR g2 h2).1⟩)]
    · have hf2 : f ∈ rest := by
        rcases List.mem_cons.mp hf with h | h
        · exact absurd h.symm hgf
        · exact h
      have h1 : f ≠ g := fun h => hgf h.symm
      have hpf : getV (decStep decFn it g) f = getV it f :=
        decStep_frame decFn it g f h1 (hsep g (List.mem_cons_self g rest)).1
      have hpfe : getV (decStep decFn it g) (f ++ "Encrypted") =
          getV it (f ++ "Encrypted") :=
        decStep_frame decFn it g (f ++ "Encrypted")
          (fun h => (hsep g (List.mem_cons_self g rest)).2 h.symm)
          (fun h => hgf (str_append_cancel f g h).symm)
      obtain ⟨p1, p2⟩ := decItemLoop_fail rest decFn (decStep decFn it g) f s e hf2
        hsepR (by rw [hpfe]; exact hv) hs hfn
      exact ⟨p1, p2.trans hpf⟩

theorem decItemLoop_succ :
    ∀ (fields : List String) (decFn : String → Except String String)
      (it : Obj) (f s d : String),
      f ∈ fields →
      (∀ g ∈ fields, f ≠ g ++ "Encrypted" ∧ g ≠ f ++ "Encrypted") →
      getV it (f ++ "Encrypted") = some (Value.str s) → s ≠ "" →
      decFn s = Except.ok d →
      getV (decryptItemLoop decFn it fields) f = some (Value.str d) ∧
        getV (decryptItemLoop decFn it fields) (f ++ "Encrypted") = none
  | [], _, _, _, _, _, hf, _, _, _, _ => absurd hf (by simp)
  | g :: rest, decFn, it, f, s, d, hf, hsep, hv, hs, hfn => by
    have hsepR : ∀ g2 ∈ rest, f ≠ g2 ++ "Encrypted" ∧ g2 ≠ f ++ "Encrypted" :=
      fun g2 h2 => hsep g2 (List.mem_cons_of_mem g h2)
    rw [decryptItemLoop]
    by_cases hgf : g = f
    · subst hgf
      rw [decStep_succ decFn it g s d hv hs hfn]
      have hit2f : getV (delV (setV it g (Value.str d)) (g ++ "Encrypted")) g =
          some (Value.str d) := by
        rw [getV_delV, if_neg (str_append_ne g), getV_setV, if_pos rfl]
      have hit2fe : getV (delV (setV it g (Value.str d)) (g ++ "Encrypted"))
          (g ++ "Encrypted") = none := by
        rw [getV_delV, if_pos rfl]
      obtain ⟨p1, p2⟩ := decItemLoop_done rest decFn
        (delV (setV it g (Value.str d)) (g ++ "Encrypted")) g hsepR hit2fe
      exact ⟨p1.trans hit2f, p2⟩
    · have hf2 : f ∈ rest := by
        rcases List.mem_cons.mp hf with h | h
        · exact absurd h.symm hgf
        · exact h
      have h1 : f ≠ g := fun h => hgf h.symm
      have hpf : getV (decStep decFn it g) f = getV it f :=
        decStep_frame decFn it g f h1 (hsep g (List.mem_cons_self g rest)).1
      have hpfe : getV (decStep decFn it g) (f ++ "Encrypted") =
          getV it (f ++ "Encrypted") :=
        decStep_frame decFn it g (f ++ "Encrypted")
          (fun h => (hsep g (List.mem_cons_self g rest)).2 h.symm)
          (fun h => hgf (str_append_cancel f g h).symm)
      exact decItemLoop_succ rest decFn (decStep decFn it g) f s d hf2 hsepR
        (by rw [hpfe]; exact hv) hs hfn

theorem sensitiveFields_sep :
    ∀ f ∈ sensitiveFields, ∀ g ∈ sensitiveFields, f ≠ g ++ "Encrypted" := by
  decide

/-- C6: on a findMany read of UserProfile the middleware returns all records
(each one mapped through the per-item decryption loop) and raises no
exception; on any record whose `<f>Encrypted` blob fails to decrypt, that
blob is kept verbatim and no plaintext key is added (the value at `f` is
unchanged), while any field whose blob decrypts is replaced by its plaintext
with the encrypted key removed. -/
theorem claim6_partial_failure (encFn decFn : String → Except String String)
    (p : Params) (next : Params → DBResult) (l : List Obj)
    (hm : p.model = "UserProfile") (ha : p.action = "findMany")
    (hres : next p = DBResult.many l) :
    createEncryptionMiddleware encFn decFn p next =
      Except.ok (DBResult.many (l.map (decryptItem decFn sensitiveFields))) ∧
    (∀ (item : Obj) (f s e : String), f ∈ sensitiveFields →
      getV item (f ++ "Encrypted") = some (Value.str s) → s ≠ "" →
      decFn s = Except.error e →
      getV (decryptItem decFn sensitiveFields item) (f ++ "Encrypted") =
          some (Value.str s) ∧
        getV (decryptItem decFn sensitiveFields item) f = getV item f) ∧
    (∀ (item : Obj) (f s d : String), f ∈ sensitiveFields →
      getV item (f ++ "Encrypted") = some (Value.str s) → s ≠ "" →
      decFn s = Except.ok d →
      getV (decryptItem decFn sensitiveFields item) f = some (Value.str d) ∧
        getV (decryptItem decFn sensitiveFields item) (f ++ "Encrypted") = none) := by
  refine ⟨?_, ?_, ?_⟩
  · have h1 : ¬((p.action = "create" ∨ p.action = "update") ∧
        p.model = "UserProfile") := by
      rintro ⟨hor, -⟩
      rcases hor with h | h <;> rw [ha] at h <;> exact absurd h (by decide)
    rw [createEncryptionMiddleware, if_neg h1]
    show (if (p.action = "findUnique" ∨ p.action = "findFirst" ∨
        p.action = "findMany") ∧ p.model = "UserProfile" then
      Except.ok
        (match next p with
          | DBResult.null => DBResult.null
          | DBResult.one item => DBResult.one (decryptItem decFn sensitiveFields item)
          | DBResult.many items =>
            DBResult.many (items.map (decryptItem decFn sensitiveFields)))
      else Except.ok (next p)) = _
    rw [if_pos ⟨Or.inr (Or.inr ha), hm⟩, hres]
  · intro item f s e hf hv hs hfn
    rw [decryptItem]
    exact decItemLoop_fail sensitiveFields decFn item f s e hf
      (fun g hg => ⟨sensitiveFields_sep f hf g hg, sensitiveFields_sep g hg f hf⟩)
      hv hs hfn
  · intro item f s d hf hv hs hfn
    rw [decryptItem]
    exact decItemLoop_succ sensitiveFields decFn item f s d hf
      (fun g hg => ⟨sensitiveFields_sep f hf g hg, sensitiveFields_sep g hg f hf⟩)
      hv hs hfn

/-- C6 witness material: the real `decrypt` bound to a valid key, one record
with a valid `phoneEncrypted` blob and one with a corrupted blob. -/
def c6DecFn : String → Except String String :=
  EncryptionService.decrypt toyAEAD (some "0123456789abcdef0123456789abcdef")

def c6Blob : String :=
  (EncryptionService.encrypt toyAEAD (some "0123456789abcdef0123456789abcdef")
    ⟨List.replicate 32 1, List.replicate 16 2⟩ "0537").toOption.get!.encrypted

def c6Item1 : Obj := [("phoneEncrypted", Value.str c6Blob)]

def c6Item2 : Obj := [("phoneEncrypted", Value.str "corrupted!!")]

/-- C6 witness: both records come back, the corrupted one untouched (no
exception, blob kept, no plaintext key), the valid one decrypted. -/
theorem claim6_partial_failure_witness :
    createEncryptionMiddleware (fun s => Except.ok s) c6DecFn
        ⟨"UserProfile", "findMany", none⟩
        (fun _ => DBResult.many [c6Item1, c6Item2]) =
      Except.ok (DBResult.many
        ([c6Item1, c6Item2].map (decryptItem c6DecFn sensitiveFields))) ∧
    getV (decryptItem c6DecFn sensitiveFields c6Item2) "phoneEncrypted" =
        some (Value.str "corrupted!!") ∧
    getV (decryptItem c6DecFn sensitiveFields c6Item2) "phone" = none ∧
    getV (decryptItem c6DecFn sensitiveFields c6Item1) "phone" =
        some (Value.str "0537") := by
  have h := claim6_partial_failure (fun s => Except.ok s) c6DecFn
    ⟨"UserProfile", "findMany", none⟩ (fun _ => DBResult.many [c6Item1, c6Item2])
    [c6Item1, c6Item2] rfl rfl rfl
  have h2 := h.2.1 c6Item2 "phone" "corrupted!!" "Error al descifrar los datos"
    (by decide) (by rfl) (by decide) (by rfl)
  have h3 := h.2.2 c6Item1 "phone" c6Blob "0537" (by decide) (by rfl) (by decide)
    (by rfl)
  refine ⟨h.1, h2.1, ?_, h3.1⟩
  rw [h2.2]
  rfl

/-! ## C7: the write path aborts entirely on an encryption failure -/

theorem encDataStep_frame (encFn : String → Except String String)
    (d d2 : Obj) (g k : String)
    (hstep : encDataStep encFn d g = Except.ok d2)
    (h1 : k ≠ g) (h2 : k ≠ g ++ "Encrypted") :
    getV d2 k = getV d k := by
  unfold encDataStep at hstep
  cases hv : getV d g with
  | none =>
    rw [hv] at hstep
    injection hstep with h
    rw [← h]
  | some v =>
    cases v with
    | other a b =>
      rw [hv] at hstep
      replace hstep : (if b then
          (Except.error "Error al cifrar los datos" : Except String Obj)
        else Except.ok d) = Except.ok d2 := hstep
      cases b with
      | true =>
        rw [if_pos rfl] at hstep
        exact Except.noConfusion hstep
      | false =>
        rw [if_neg (by simp)] at hstep
        injection hstep with h
        rw [← h]
    | str s =>
      rw [hv] at hstep
      replace hstep : (if s = "" then Except.ok d
          else Except.map
            (fun blob => delV (setV d (g ++ "Encrypted") (Value.str blob)) g)
            (encFn s)) = Except.ok d2 := hstep
      by_cases hs : s = ""
      · rw [if_pos hs] at hstep
        injection hstep with h
        rw [← h]
      · rw [if_neg hs] at hstep
        cases hfn : encFn s with
        | error e => rw [hfn] at hstep; simp [Except.map] at hstep
        | ok blob =>
          rw [hfn] at hstep
          simp only [Except.map, Except.ok.injEq] at hstep
          rw [← hstep, getV_delV, if_neg h1, getV_setV, if_neg h2]

theorem encDataLoop_fails :
    ∀ (fields : List String) (encFn : String → Except String String)
      (d : Obj) (f s e : String),
      f ∈ fields →
      (∀ g ∈ fields, f ≠ g ++ "Encrypted") →
      getV d f = some (Value.str s) → s ≠ "" → encFn s = Except.error e →
      ∃ e2, encryptDataLoop encFn d fields = Except.error e2
  | [], _, _, _, _, _, hf, _, _, _, _ => absurd hf (by simp)
  | g :: rest, encFn, d, f, s, e, hf, hsep, hv, hs, hfn => by
    by_cases hgf : g = f
    · subst hgf
      have hstep : encDataStep encFn d g = Except.error e := by
        unfold encDataStep
        rw [hv]
        show (if s = "" then Except.ok d
            else Except.map
              (fun blob => delV (setV d (g ++ "Encrypted") (Value.str blob)) g)
              (encFn s)) = Except.error e
        rw [if_neg hs, hfn]
        rfl
      refine ⟨e, ?_⟩
      rw [encryptDataLoop, hstep]
    · cases hstep : encDataStep encFn d g with
      | error e2 =>
        refine ⟨e2, ?_⟩
        rw [encryptDataLoop, hstep]
      | ok d2 =>
        have hf2 : f ∈ rest := by
          rcases List.mem_cons.mp hf with h | h
          · exact absurd h.symm hgf
          · exact h
        have hpres : getV d2 f = getV d f :=
          encDataStep_frame encFn d d2 g f hstep (fun h => hgf h.symm)
            (hsep g (List.mem_cons_self g rest))
        obtain ⟨e2, h2⟩ := encDataLoop_fails rest encFn d2 f s e hf2
          (fun g2 hg2 => hsep g2 (List.mem_cons_of_mem g hg2))
          (by rw [hpres]; exact hv) hs hfn
        refine ⟨e2, ?_⟩
        rw [encryptDataLoop, hstep]
        exact h2

/-- When the write-path field loop throws, the middleware rejects with that
error before `next` is ever invoked — for every `next`. -/
theorem middleware_write_abort (encFn decFn : String → Except String String)
    (p : Params) (next : Params → DBResult) (d : Obj) (e2 : String)
    (hc : (p.action = "create" ∨ p.action = "update") ∧ p.model = "UserProfile")
    (hd : p.data = some d)
    (henc : encryptData encFn sensitiveFields d = Except.error e2) :
    createEncryptionMiddleware encFn decFn p next = Except.error e2 := by
  rw [createEncryptionMiddleware, if_pos hc, hd]
  simp only [henc, Except.map]

/-- C7: on a create/update of UserProfile whose payload has a sensitive field
with a truthy string value on which encryption fails, the middleware rejects
with that error, identically for every `next` — the underlying storage write
is never invoked, so nothing is persisted. -/
theorem claim7_write_abort (encFn decFn : String → Except String String)
    (p : Params) (d : Obj) (f s e : String)
    (hm : p.model = "UserProfile") (ha : p.action = "create" ∨ p.action = "update")
    (hd : p.data = some d) (hf : f ∈ sensitiveFields)
    (hv : getV d f = some (Value.str s)) (hs : s ≠ "")
    (hfn : encFn s = Except.error e) :
    ∃ e2, ∀ next : Params → DBResult,
      createEncryptionMiddleware encFn decFn p next = Except.error e2 := by
  obtain ⟨e2, hloop⟩ := encDataLoop_fails sensitiveFields encFn d f s e hf
    (fun g hg => sensitiveFields_sep f hf g hg) hv hs hfn
  exact ⟨e2, fun next => middleware_write_abort encFn decFn p next d e2 ⟨ha, hm⟩ hd
    (by rw [encryptData]; exact hloop)⟩

def c7EncFn (s : String) : Except String String :=
  (EncryptionService.encrypt toyAEAD none ⟨[], []⟩ s).map EncryptedData.encrypted

def c7P : Params := ⟨"UserProfile", "create", some [("phone", Value.str "123")]⟩

/-- C7 witness: with a failing `encrypt` (missing key), a create of
UserProfile rejects (`toOption = none`) and its outcome is identical for two
different storage layers, so the write is never invoked. -/
theorem claim7_write_abort_witness :
    (createEncryptionMiddleware c7EncFn (fun s => Except.ok s) c7P
        (fun _ => DBResult.null)).toOption = none ∧
    createEncryptionMiddleware c7EncFn (fun s => Except.ok s) c7P
        (fun _ => DBResult.null) =
      createEncryptionMiddleware c7EncFn (fun s => Except.ok s) c7P
        (fun _ => DBResult.many [[("phone", Value.str "999")]]) := by
  obtain ⟨e2, h⟩ := claim7_write_abort c7EncFn (fun s => Except.ok s) c7P
    [("phone", Value.str "123")] "phone" "123" "Error al cifrar los datos"
    rfl (Or.inl rfl) rfl (by decide) (by rfl) (by decide) (by rfl)
  constructor
  · rw [h (fun _ => DBResult.null)]
    rfl
  · rw [h (fun _ => DBResult.null),
      h (fun _ => DBResult.many [[("phone", Value.str "999")]])]

end Aliyah
